import Mathlib

/-!
Verification of the pixi-batch-renderer core against its specification.

Part 1 embeds `resolveProperty` from
`src/packages/pixi-batch-renderer/src/utils/resolveProperty.ts`.
JavaScript values that the function can produce are modelled by `JSVal`
(a number, or the `undefined` value); a display object is modelled as a
total map from field names to `JSVal` (an absent field reads as
`undefined`, as in JavaScript); the `prop` argument of type
`string | number | ((object) => number)` together with the possibility
of passing `undefined` is the tagged union `PropSpec`; the optional
`def` parameter is an `Option Int` (`none` = not supplied).

Part 2 models the Batch Builder and the Texture Deduplicator, whose
implementation is not present under `src/` (only the documentation
describes them); those definitions carry `Modelled from the spec:` doc
comments.
-/

/-- A JavaScript value as far as `resolveProperty` is concerned: either a
number or the `undefined` value. -/
inductive JSVal where
  | num : Int → JSVal
  | undef : JSVal
deriving DecidableEq, Repr

/-- A display object, seen as a total map from field names to values; in
JavaScript reading an absent field yields `undefined`, which the total map
models directly. -/
def Obj : Type := String → JSVal

/-- The `prop` argument of `resolveProperty`: a field-name string, a
number, a derivation function, or the `undefined` value. -/
inductive PropSpec where
  | str : String → PropSpec
  | num : Int → PropSpec
  | fn : (Obj → Int) → PropSpec
  | undef : PropSpec

/-- The value of the optional `def` parameter as seen from the function
body: an unsupplied optional parameter reads as `undefined`. -/
def defToVal : Option Int → JSVal
  | some n => JSVal.num n
  | none => JSVal.undef

/-- Embedding of `resolveProperty(object, prop, def)` from
`src/packages/pixi-batch-renderer/src/utils/resolveProperty.ts`:
`switch (typeof prop)` with cases `'string'` (return `object[prop]`),
`'function'` (return `prop(object)`), `'undefined'` (return `def`), and
the fall-through `return prop` for the number case. -/
def resolveProperty (object : Obj) (prop : PropSpec) (d : Option Int) : JSVal :=
  match prop with
  | PropSpec.str s => object s
  | PropSpec.fn f => JSVal.num (f object)
  | PropSpec.undef => defToVal d
  | PropSpec.num n => JSVal.num n

/-- A state-passing transcription of `resolveProperty`: the function body
only ever reads from `object` (field dereference, or passing it to the
derivation function), so each branch returns the result value paired with
the object store exactly as it was received. -/
def resolvePropertyTr (object : Obj) (prop : PropSpec) (d : Option Int) :
    JSVal × Obj :=
  match prop with
  | PropSpec.str s => (object s, object)
  | PropSpec.fn f => (JSVal.num (f object), object)
  | PropSpec.undef => (defToVal d, object)
  | PropSpec.num n => (JSVal.num n, object)

/-- Claim C1: for every display object, `resolveProperty` returns the
field value for a field-name string, `f(obj)` for a function `f`, the
number itself for a numeric spec regardless of any supplied default, and
the supplied default for an `undefined` spec. -/
theorem resolveProperty_cases (o : Obj) (s : String) (f : Obj → Int)
    (n dv : Int) (d : Option Int) :
    resolveProperty o (PropSpec.str s) d = o s ∧
    resolveProperty o (PropSpec.fn f) d = JSVal.num (f o) ∧
    resolveProperty o (PropSpec.num n) d = JSVal.num n ∧
    resolveProperty o PropSpec.undef (some dv) = JSVal.num dv :=
  ⟨rfl, rfl, rfl, rfl⟩

/-- Claim C2, counterexample: resolving an `undefined` property spec with
no default supplied returns the `undefined` value, which is not a number,
so resolution does not always return a defined numeric value. -/
theorem resolveProperty_undef_not_num :
    resolveProperty (fun _ => JSVal.undef) PropSpec.undef none = JSVal.undef ∧
    ∀ n : Int, JSVal.undef ≠ JSVal.num n :=
  ⟨rfl, fun _ h => JSVal.noConfusion h⟩

/-- Claim C2, amended: resolution returns a defined numeric value whenever
the spec is not `undefined`-without-a-default and any field-name string it
carries names a field holding a number on the object. -/
theorem resolveProperty_num_of_defined (o : Obj) (p : PropSpec) (d : Option Int)
    (hu : p = PropSpec.undef → d ≠ none)
    (hs : ∀ s, p = PropSpec.str s → ∃ n : Int, o s = JSVal.num n) :
    ∃ n : Int, resolveProperty o p d = JSVal.num n := by
  cases p with
  | str s => exact (hs s rfl).imp fun n h => h
  | num n => exact ⟨n, rfl⟩
  | fn f => exact ⟨f o, rfl⟩
  | undef =>
      cases d with
      | none => exact absurd rfl (hu rfl)
      | some n => exact ⟨n, rfl⟩

/-- Claim C2, witness for the amended theorem at a concrete input. -/
theorem resolveProperty_num_of_defined_witness :
    ∃ n : Int, resolveProperty (fun _ => JSVal.num 4) (PropSpec.str "x") none
      = JSVal.num n :=
  resolveProperty_num_of_defined (fun _ => JSVal.num 4) (PropSpec.str "x") none
    (fun h => PropSpec.noConfusion h)
    (fun _ _ => ⟨4, rfl⟩)

/-- Claim C3: resolving a field-name string whose field is absent on the
object (reads as `undefined`) without a default does not fail: it returns
exactly the (undefined) value the field lookup produces. -/
theorem resolveProperty_missing_field (o : Obj) (s : String)
    (h : o s = JSVal.undef) :
    resolveProperty o (PropSpec.str s) none = JSVal.undef := h

/-- Claim C3, witness at a concrete object with no fields set. -/
theorem resolveProperty_missing_field_witness :
    resolveProperty (fun _ => JSVal.undef) (PropSpec.str "y") none
      = JSVal.undef :=
  resolveProperty_missing_field (fun _ => JSVal.undef) "y" rfl

/-- Claim C4: `resolveProperty` is deterministic and side-effect-free: the
state-passing transcription returns, for every input, exactly the value
computed by the pure function together with the object store unchanged. -/
theorem resolveProperty_pure (o : Obj) (p : PropSpec) (d : Option Int) :
    resolvePropertyTr o p d = (resolveProperty o p d, o) := by
  cases p <;> rfl

/-- Claim C10: resolving an `undefined` property spec with no default
returns the `undefined` value — not a number — and no error is raised
(the function is total on this input). -/
theorem resolveProperty_undef_none (o : Obj) :
    resolveProperty o PropSpec.undef none = JSVal.undef ∧
    ∀ n : Int, resolveProperty o PropSpec.undef none ≠ JSVal.num n :=
  ⟨rfl, fun _ h => JSVal.noConfusion h⟩

/-- Modelled from the spec: the implementation of the Batch Builder is not
under `src/`; a display object, as the builder sees it, carries a texture
identity, a vertex count, and a per-object index array whose entries
reference the object's own vertices. -/
structure DisplayObj where
  texture : Nat
  vertexCount : Nat
  indices : List Nat
deriving DecidableEq, Repr

/-- Modelled from the spec: the immutable configuration the builder reads —
the texture-unit budget `texturesPerBatch` and the destination vertex
buffer capacity. -/
structure BatchConfig where
  texturesPerBatch : Nat
  vertexCapacity : Nat
deriving DecidableEq, Repr

/-- Modelled from the spec: a batch is a contiguous object range of the
queue together with the insertion-ordered list of the distinct textures
placed in it; a texture's slot is its position in that list. -/
structure Batch where
  objs : List DisplayObj
  textures : List Nat
deriving DecidableEq, Repr

/-- Total flattened vertex count of a sequence of objects. -/
def vertexTotal (objs : List DisplayObj) : Nat :=
  (objs.map DisplayObj.vertexCount).sum

/-- Modelled from the spec: whether a single object fits in an empty
destination buffer at all (an object too large for any batch is a reported
error, not a silent drop). -/
def fitsAlone (cfg : BatchConfig) (o : DisplayObj) : Bool :=
  decide (o.vertexCount ≤ cfg.vertexCapacity)

/-- Modelled from the spec: whether the accumulating batch can accept the
next object — its texture is already seen in this batch or the texture
budget still has room, and the flattened vertex count stays within the
destination buffer capacity. -/
def canAccept (cfg : BatchConfig) (cur : Batch) (o : DisplayObj) : Bool :=
  (decide (o.texture ∈ cur.textures) ||
    decide (cur.textures.length < cfg.texturesPerBatch)) &&
  decide (vertexTotal cur.objs + o.vertexCount ≤ cfg.vertexCapacity)

/-- Modelled from the spec: a freshly started batch holding one object;
the insertion-ordered texture mapping is cleared and the object's texture
takes slot 0. -/
def startBatch (o : DisplayObj) : Batch :=
  ⟨[o], [o.texture]⟩

/-- Modelled from the spec: adding an object to the accumulating batch —
the object is appended to the range, and its texture is appended to the
insertion-ordered mapping only when not already seen in this batch. -/
def addToBatch (cur : Batch) (o : DisplayObj) : Batch :=
  ⟨cur.objs ++ [o],
    if o.texture ∈ cur.textures then cur.textures
    else cur.textures ++ [o.texture]⟩

/-- Modelled from the spec: the builder's main loop — walk the remaining
queue in submission order; an object the accumulating batch can accept is
added to it, otherwise the batch is sealed and a new batch begins with
that object; an object that fits no batch is a reported failure (`none`). -/
def buildGo (cfg : BatchConfig) :
    List DisplayObj → Batch → List Batch → Option (List Batch)
  | [], cur, acc => some (acc ++ [cur])
  | o :: rest, cur, acc =>
    if canAccept cfg cur o then buildGo cfg rest (addToBatch cur o) acc
    else if fitsAlone cfg o then buildGo cfg rest (startBatch o) (acc ++ [cur])
    else none

/-- Modelled from the spec: the Batch Builder — partition the pending
object queue, in strict submission order, into contiguous batches
respecting the texture budget and the buffer capacity. An empty queue
yields no batches. -/
def buildBatches (cfg : BatchConfig) : List DisplayObj → Option (List Batch)
  | [] => some []
  | o :: rest =>
    if fitsAlone cfg o then buildGo cfg rest (startBatch o) [] else none

/-- Modelled from the spec: the Texture Deduplicator's slot lookup — the
position of a texture in the batch's insertion-ordered texture list. -/
def slotIdx (ts : List Nat) (t : Nat) : Nat :=
  match ts with
  | [] => 0
  | a :: rest => if t = a then 0 else slotIdx rest t + 1

/-- The texture slot assigned to an object within a batch. -/
def slotOf (b : Batch) (o : DisplayObj) : Nat :=
  slotIdx b.textures o.texture

/-- Modelled from the spec: index flattening — each object's index values
are offset by the running vertex count accumulated before it. -/
def flattenIndicesGo : List DisplayObj → Nat → List Nat
  | [], _ => []
  | o :: rest, off =>
    o.indices.map (fun i => i + off) ++ flattenIndicesGo rest (off + o.vertexCount)

/-- The flattened index buffer of a batch's object range. -/
def flattenIndices (objs : List DisplayObj) : List Nat :=
  flattenIndicesGo objs 0

/-- The flattened index buffer stored with a batch. -/
def batchIndexBuffer (b : Batch) : List Nat :=
  flattenIndices b.objs

/-- Number of flattened index values contributed by objects before
position `k` of a batch's object range. -/
def idxCountBefore (objs : List DisplayObj) (k : Nat) : Nat :=
  ((objs.take k).map (fun o => o.indices.length)).sum

/-- Cumulative vertex count of objects before position `k` of a batch's
object range: the index offset recorded for object `k`. -/
def vertexBefore (objs : List DisplayObj) (k : Nat) : Nat :=
  vertexTotal (objs.take k)

theorem buildGo_join (cfg : BatchConfig) :
    ∀ (rest : List DisplayObj) (cur : Batch) (acc bs : List Batch),
      buildGo cfg rest cur acc = some bs →
      (bs.map Batch.objs).flatten = (acc.map Batch.objs).flatten ++ cur.objs ++ rest
  | [], cur, acc, bs, h => by
      simp only [buildGo, Option.some.injEq] at h
      subst h
      simp
  | o :: rest, cur, acc, bs, h => by
      rw [buildGo] at h
      by_cases h1 : canAccept cfg cur o = true
      · rw [if_pos h1] at h
        have ih := buildGo_join cfg rest (addToBatch cur o) acc bs h
        simpa [addToBatch, List.append_assoc] using ih
      · rw [if_neg h1] at h
        by_cases h2 : fitsAlone cfg o = true
        · rw [if_pos h2] at h
          have ih := buildGo_join cfg rest (startBatch o) (acc ++ [cur]) bs h
          simpa [startBatch, List.append_assoc] using ih
        · rw [if_neg h2] at h
          exact absurd h (by simp)

/-- Claim C5: concatenating the object ranges of all batches the Batch
Builder produces, in batch order, reproduces the submitted sequence
exactly — batching never reorders, drops, or duplicates objects. -/
theorem buildBatches_order (cfg : BatchConfig) (objs : List DisplayObj)
    (bs : List Batch) (h : buildBatches cfg objs = some bs) :
    (bs.map Batch.objs).flatten = objs := by
  cases objs with
  | nil =>
      simp only [buildBatches, Option.some.injEq] at h
      subst h
      simp
  | cons o rest =>
      rw [buildBatches] at h
      by_cases hf : fitsAlone cfg o = true
      · rw [if_pos hf] at h
        simpa [startBatch] using buildGo_join cfg rest (startBatch o) [] bs h
      · rw [if_neg hf] at h
        exact absurd h (by simp)

/-- Claim C5, witness at a concrete two-object submission. -/
theorem buildBatches_order_witness :
    (([⟨[⟨0, 3, [0, 1, 2]⟩, ⟨1, 2, [0, 1]⟩], [0, 1]⟩] : List Batch).map
        Batch.objs).flatten = [⟨0, 3, [0, 1, 2]⟩, ⟨1, 2, [0, 1]⟩] :=
  buildBatches_order ⟨2, 10⟩ [⟨0, 3, [0, 1, 2]⟩, ⟨1, 2, [0, 1]⟩]
    [⟨[⟨0, 3, [0, 1, 2]⟩, ⟨1, 2, [0, 1]⟩], [0, 1]⟩] (by decide)

theorem slotIdx_lt_length {ts : List Nat} {t : Nat} (h : t ∈ ts) :
    slotIdx ts t < ts.length := by
  induction ts with
  | nil => simp at h
  | cons a rest ih =>
      by_cases he : t = a
      · simp [slotIdx, he]
      · have ht : t ∈ rest := by
          rcases List.mem_cons.mp h with h1 | h1
          · exact absurd h1 he
          · exact h1
        simp only [slotIdx, if_neg he, List.length_cons]
        exact Nat.succ_lt_succ (ih ht)

theorem slotIdx_inj {ts : List Nat} {t1 t2 : Nat} (h1 : t1 ∈ ts)
    (h2 : t2 ∈ ts) (he : slotIdx ts t1 = slotIdx ts t2) : t1 = t2 := by
  induction ts with
  | nil => simp at h1
  | cons a rest ih =>
      by_cases e1 : t1 = a <;> by_cases e2 : t2 = a
      · exact e1.trans e2.symm
      · rw [slotIdx, slotIdx, if_pos e1, if_neg e2] at he
        exact absurd he (by simp)
      · rw [slotIdx, slotIdx, if_neg e1, if_pos e2] at he
        exact absurd he (by simp)
      · rw [slotIdx, slotIdx, if_neg e1, if_neg e2] at he
        have m1 : t1 ∈ rest := (List.mem_cons.mp h1).resolve_left e1
        have m2 : t2 ∈ rest := (List.mem_cons.mp h2).resolve_left e2
        exact ih m1 m2 (Nat.succ_injective he)

/-- The invariant the builder maintains for every batch: the texture list
stays within the texture budget, and every object placed in the batch has
its texture recorded in the batch's texture list. -/
def BatchOK (cfg : BatchConfig) (b : Batch) : Prop :=
  b.textures.length ≤ cfg.texturesPerBatch ∧
  ∀ o ∈ b.objs, o.texture ∈ b.textures

theorem addToBatch_ok {cfg : BatchConfig} {cur : Batch} {o : DisplayObj}
    (hok : BatchOK cfg cur) (hacc : canAccept cfg cur o = true) :
    BatchOK cfg (addToBatch cur o) := by
  have htex : o.texture ∈ cur.textures ∨
      cur.textures.length < cfg.texturesPerBatch := by
    simp only [canAccept, Bool.and_eq_true, Bool.or_eq_true,
      decide_eq_true_eq] at hacc
    exact hacc.1
  by_cases hm : o.texture ∈ cur.textures
  · refine ⟨?_, ?_⟩
    · simpa [addToBatch, hm] using hok.1
    · intro o' ho'
      simp only [addToBatch, List.mem_append, List.mem_singleton] at ho'
      simp only [addToBatch, if_pos hm]
      rcases ho' with ho' | ho'
      · exact hok.2 o' ho'
      · exact ho' ▸ hm
  · have hlt : cur.textures.length < cfg.texturesPerBatch :=
      htex.resolve_left hm
    refine ⟨?_, ?_⟩
    · simpa [addToBatch, hm] using hlt
    · intro o' ho'
      simp only [addToBatch, List.mem_append, List.mem_singleton] at ho'
      simp only [addToBatch, if_neg hm, List.mem_append, List.mem_singleton]
      rcases ho' with ho' | ho'
      · exact Or.inl (hok.2 o' ho')
      · exact Or.inr (by rw [ho'])

theorem buildGo_ok (cfg : BatchConfig) (hpos : 0 < cfg.texturesPerBatch) :
    ∀ (rest : List DisplayObj) (cur : Batch) (acc bs : List Batch),
      BatchOK cfg cur → (∀ b ∈ acc, BatchOK cfg b) →
      buildGo cfg rest cur acc = some bs → ∀ b ∈ bs, BatchOK cfg b
  | [], cur, acc, bs, hcur, hacc, h => by
      simp only [buildGo, Option.some.injEq] at h
      subst h
      intro b hb
      rcases List.mem_append.mp hb with hb | hb
      · exact hacc b hb
      · rw [List.mem_singleton.mp hb]
        exact hcur
  | o :: rest, cur, acc, bs, hcur, hacc, h => by
      rw [buildGo] at h
      by_cases h1 : canAccept cfg cur o = true
      · rw [if_pos h1] at h
        exact buildGo_ok cfg hpos rest (addToBatch cur o) acc bs
          (addToBatch_ok hcur h1) hacc h
      · rw [if_neg h1] at h
        by_cases h2 : fitsAlone cfg o = true
        · rw [if_pos h2] at h
          refine buildGo_ok cfg hpos rest (startBatch o) (acc ++ [cur]) bs
            ⟨hpos, ?_⟩ ?_ h
          · intro o' ho'
            rw [List.mem_singleton.mp ho']
            simp [startBatch]
          · intro b hb
            rcases List.mem_append.mp hb with hb | hb
            · exact hacc b hb
            · rw [List.mem_singleton.mp hb]
              exact hcur
        · rw [if_neg h2] at h
          exact absurd h (by simp)

theorem buildBatches_ok (cfg : BatchConfig) (hpos : 0 < cfg.texturesPerBatch)
    (objs : List DisplayObj) (bs : List Batch)
    (h : buildBatches cfg objs = some bs) : ∀ b ∈ bs, BatchOK cfg b := by
  cases objs with
  | nil =>
      simp only [buildBatches, Option.some.injEq] at h
      subst h
      simp
  | cons o rest =>
      rw [buildBatches] at h
      by_cases hf : fitsAlone cfg o = true
      · rw [if_pos hf] at h
        refine buildGo_ok cfg hpos rest (startBatch o) [] bs ⟨hpos, ?_⟩
          (by simp) h
        intro o' ho'
        rw [List.mem_singleton.mp ho']
        simp [startBatch]
      · rw [if_neg hf] at h
        exact absurd h (by simp)

/-- Claim C6: within any batch the builder produces (with a positive
texture budget), objects sharing an identical texture get the identical
slot, objects with distinct textures get distinct slots, and every slot
lies in `[0, texturesPerBatch)`. -/
theorem buildBatches_slots (cfg : BatchConfig) (objs : List DisplayObj)
    (bs : List Batch) (hpos : 0 < cfg.texturesPerBatch)
    (h : buildBatches cfg objs = some bs) (b : Batch) (hb : b ∈ bs) :
    (∀ o1 ∈ b.objs, ∀ o2 ∈ b.objs,
        (o1.texture = o2.texture → slotOf b o1 = slotOf b o2) ∧
        (o1.texture ≠ o2.texture → slotOf b o1 ≠ slotOf b o2)) ∧
    ∀ o ∈ b.objs, slotOf b o < cfg.texturesPerBatch := by
  have hok : BatchOK cfg b := buildBatches_ok cfg hpos objs bs h b hb
  refine ⟨?_, ?_⟩
  · intro o1 h1 o2 h2
    refine ⟨fun he => by rw [slotOf, slotOf, he], fun hne hs => ?_⟩
    exact hne (slotIdx_inj (hok.2 o1 h1) (hok.2 o2 h2) hs)
  · intro o ho
    exact Nat.lt_of_lt_of_le (slotIdx_lt_length (hok.2 o ho)) hok.1

/-- Claim C6, witness at a concrete one-batch build with two textures. -/
theorem buildBatches_slots_witness :
    (∀ o1 ∈ ({ objs := [⟨0, 1, []⟩, ⟨1, 1, []⟩], textures := [0, 1] } :
          Batch).objs,
        ∀ o2 ∈ ({ objs := [⟨0, 1, []⟩, ⟨1, 1, []⟩], textures := [0, 1] } :
          Batch).objs,
        (o1.texture = o2.texture →
          slotOf ⟨[⟨0, 1, []⟩, ⟨1, 1, []⟩], [0, 1]⟩ o1 =
            slotOf ⟨[⟨0, 1, []⟩, ⟨1, 1, []⟩], [0, 1]⟩ o2) ∧
        (o1.texture ≠ o2.texture →
          slotOf ⟨[⟨0, 1, []⟩, ⟨1, 1, []⟩], [0, 1]⟩ o1 ≠
            slotOf ⟨[⟨0, 1, []⟩, ⟨1, 1, []⟩], [0, 1]⟩ o2)) ∧
    ∀ o ∈ ({ objs := [⟨0, 1, []⟩, ⟨1, 1, []⟩], textures := [0, 1] } :
        Batch).objs,
      slotOf ⟨[⟨0, 1, []⟩, ⟨1, 1, []⟩], [0, 1]⟩ o < (2 : Nat) :=
  buildBatches_slots ⟨2, 10⟩ [⟨0, 1, []⟩, ⟨1, 1, []⟩]
    [⟨[⟨0, 1, []⟩, ⟨1, 1, []⟩], [0, 1]⟩] (by decide) (by decide)
    ⟨[⟨0, 1, []⟩, ⟨1, 1, []⟩], [0, 1]⟩ (List.mem_singleton.mpr rfl)

theorem flattenIndicesGo_drop :
    ∀ (objs : List DisplayObj) (off k : Nat), k ≤ objs.length →
      (flattenIndicesGo objs off).drop (idxCountBefore objs k) =
        flattenIndicesGo (objs.drop k) (off + vertexBefore objs k)
  | objs, off, 0, _ => by
      simp [idxCountBefore, vertexBefore, vertexTotal]
  | [], _, k + 1, hk => by simp at hk
  | o :: rest, off, k + 1, hk => by
      have ih := flattenIndicesGo_drop rest (off + o.vertexCount) k
        (Nat.le_of_succ_le_succ hk)
      simp only [idxCountBefore] at ih
      simp only [flattenIndicesGo, idxCountBefore, List.take_succ_cons,
        List.map_cons, List.sum_cons, List.drop_succ_cons]
      rw [show o.indices.length =
          (o.indices.map (fun i => i + off)).length from
          (List.length_map _ _).symm,
        List.drop_append, ih]
      simp [vertexBefore, vertexTotal, Nat.add_assoc]

theorem flattenIndicesGo_take (o : DisplayObj) (rest : List DisplayObj)
    (off : Nat) :
    (flattenIndicesGo (o :: rest) off).take o.indices.length =
      o.indices.map (fun i => i + off) := by
  rw [flattenIndicesGo,
    show o.indices.length = (o.indices.map (fun i => i + off)).length from
      (List.length_map _ _).symm]
  exact List.take_left _ _

/-- Claim C7: in any batch the builder produces, the flattened index
values of the object at position `k` are the object's own indices offset
by the cumulative vertex count of objects `0..k-1` of that batch, and
subtracting that recorded offset from the flattened segment reconstructs
the original per-object index array. -/
theorem batch_index_offsets (cfg : BatchConfig) (objs : List DisplayObj)
    (bs : List Batch) (h : buildBatches cfg objs = some bs) (b : Batch)
    (hb : b ∈ bs) (k : Nat) (hk : k < b.objs.length) :
    ((batchIndexBuffer b).drop (idxCountBefore b.objs k)).take
        (b.objs.get ⟨k, hk⟩).indices.length =
      (b.objs.get ⟨k, hk⟩).indices.map
        (fun i => i + vertexBefore b.objs k) ∧
    (((batchIndexBuffer b).drop (idxCountBefore b.objs k)).take
        (b.objs.get ⟨k, hk⟩).indices.length).map
        (fun i => i - vertexBefore b.objs k) =
      (b.objs.get ⟨k, hk⟩).indices := by
  have hdrop := flattenIndicesGo_drop b.objs 0 k (Nat.le_of_lt hk)
  have hcons : b.objs.drop k = b.objs.get ⟨k, hk⟩ :: b.objs.drop (k + 1) :=
    List.drop_eq_getElem_cons hk
  have hfirst : ((batchIndexBuffer b).drop (idxCountBefore b.objs k)).take
      (b.objs.get ⟨k, hk⟩).indices.length =
      (b.objs.get ⟨k, hk⟩).indices.map
        (fun i => i + vertexBefore b.objs k) := by
    rw [batchIndexBuffer, flattenIndices, hdrop, hcons]
    simpa using flattenIndicesGo_take (b.objs.get ⟨k, hk⟩)
      (b.objs.drop (k + 1)) (0 + vertexBefore b.objs k)
  refine ⟨hfirst, ?_⟩
  have hround : ∀ l : List Nat,
      (l.map (fun i => i + vertexBefore b.objs k)).map
        (fun i => i - vertexBefore b.objs k) = l := by
    intro l
    induction l with
    | nil => rfl
    | cons a t iht => simp [iht, Nat.add_sub_cancel]
  rw [hfirst]
  exact hround _

/-- Claim C7, witness at a concrete one-batch build, second object. -/
theorem batch_index_offsets_witness :
    ((batchIndexBuffer ⟨[⟨0, 2, [0, 1]⟩, ⟨0, 3, [0, 1, 2]⟩], [0]⟩).drop
        (idxCountBefore [⟨0, 2, [0, 1]⟩, ⟨0, 3, [0, 1, 2]⟩] 1)).take
        (([⟨0, 2, [0, 1]⟩, ⟨0, 3, [0, 1, 2]⟩] : List DisplayObj).get
          ⟨1, by decide⟩).indices.length =
      (([⟨0, 2, [0, 1]⟩, ⟨0, 3, [0, 1, 2]⟩] : List DisplayObj).get
          ⟨1, by decide⟩).indices.map
        (fun i => i + vertexBefore [⟨0, 2, [0, 1]⟩, ⟨0, 3, [0, 1, 2]⟩] 1) ∧
    (((batchIndexBuffer ⟨[⟨0, 2, [0, 1]⟩, ⟨0, 3, [0, 1, 2]⟩], [0]⟩).drop
        (idxCountBefore [⟨0, 2, [0, 1]⟩, ⟨0, 3, [0, 1, 2]⟩] 1)).take
        (([⟨0, 2, [0, 1]⟩, ⟨0, 3, [0, 1, 2]⟩] : List DisplayObj).get
          ⟨1, by decide⟩).indices.length).map
        (fun i => i - vertexBefore [⟨0, 2, [0, 1]⟩, ⟨0, 3, [0, 1, 2]⟩] 1) =
      (([⟨0, 2, [0, 1]⟩, ⟨0, 3, [0, 1, 2]⟩] : List DisplayObj).get
          ⟨1, by decide⟩).indices :=
  batch_index_offsets ⟨2, 10⟩ [⟨0, 2, [0, 1]⟩, ⟨0, 3, [0, 1, 2]⟩]
    [⟨[⟨0, 2, [0, 1]⟩, ⟨0, 3, [0, 1, 2]⟩], [0]⟩] (by decide)
    ⟨[⟨0, 2, [0, 1]⟩, ⟨0, 3, [0, 1, 2]⟩], [0]⟩ (List.mem_singleton.mpr rfl)
    1 (by decide)

theorem vertexTotal_append (l1 l2 : List DisplayObj) :
    vertexTotal (l1 ++ l2) = vertexTotal l1 + vertexTotal l2 := by
  simp [vertexTotal]

theorem buildGo_one (cfg : BatchConfig) (tlist : List Nat)
    (hnd : tlist.Nodup) (hlen : tlist.length ≤ cfg.texturesPerBatch) :
    ∀ (rest : List DisplayObj) (cur : Batch) (acc : List Batch),
      cur.textures.Nodup → (∀ t ∈ cur.textures, t ∈ tlist) →
      (∀ o ∈ rest, o.texture ∈ tlist) →
      vertexTotal cur.objs + vertexTotal rest ≤ cfg.vertexCapacity →
      ∃ b : Batch, buildGo cfg rest cur acc = some (acc ++ [b]) ∧
        b.objs = cur.objs ++ rest
  | [], cur, acc, _, _, _, _ => ⟨cur, by rw [buildGo], by simp⟩
  | o :: rest, cur, acc, hcnd, hsub, hrest, hcap => by
      have hvo : vertexTotal [o] = o.vertexCount := by simp [vertexTotal]
      have hsplit : vertexTotal (o :: rest) = o.vertexCount + vertexTotal rest := by
        simp [vertexTotal]
      have hcap1 : vertexTotal cur.objs + o.vertexCount ≤ cfg.vertexCapacity := by
        refine le_trans ?_ hcap
        rw [hsplit, ← Nat.add_assoc]
        exact Nat.le_add_right _ _
      have htx : o.texture ∈ cur.textures ∨
          cur.textures.length < cfg.texturesPerBatch := by
        by_cases hm : o.texture ∈ cur.textures
        · exact Or.inl hm
        · refine Or.inr ?_
          have hnd' : (cur.textures ++ [o.texture]).Nodup := by
            simp [List.nodup_append, hcnd, hm]
          have hsub' : cur.textures ++ [o.texture] ⊆ tlist := by
            intro t ht
            rcases List.mem_append.mp ht with ht | ht
            · exact hsub t ht
            · rw [List.mem_singleton.mp ht]
              exact hrest o (List.mem_cons_self o rest)
          have := (hnd'.subperm hsub').length_le
          simp only [List.length_append, List.length_singleton] at this
          exact Nat.lt_of_lt_of_le (Nat.lt_of_lt_of_le (Nat.lt_succ_self _)
            this) hlen
      have hacc : canAccept cfg cur o = true := by
        simp only [canAccept, Bool.and_eq_true, Bool.or_eq_true,
          decide_eq_true_eq]
        exact ⟨htx.imp id id, hcap1⟩
      rw [buildGo, if_pos hacc]
      have hnd2 : (addToBatch cur o).textures.Nodup := by
        by_cases hm : o.texture ∈ cur.textures
        · simpa [addToBatch, hm] using hcnd
        · simp [addToBatch, hm, List.nodup_append, hcnd]
      have hsub2 : ∀ t ∈ (addToBatch cur o).textures, t ∈ tlist := by
        intro t ht
        by_cases hm : o.texture ∈ cur.textures
        · rw [addToBatch] at ht
          simp only [if_pos hm] at ht
          exact hsub t ht
        · rw [addToBatch] at ht
          simp only [if_neg hm, List.mem_append, List.mem_singleton] at ht
          rcases ht with ht | ht
          · exact hsub t ht
          · rw [ht]
            exact hrest o (List.mem_cons_self o rest)
      have hcap2 : vertexTotal (addToBatch cur o).objs + vertexTotal rest ≤
          cfg.vertexCapacity := by
        have : (addToBatch cur o).objs = cur.objs ++ [o] := rfl
        rw [this, vertexTotal_append, hvo, Nat.add_assoc, ← hsplit]
        exact hcap
      obtain ⟨b, hb1, hb2⟩ := buildGo_one cfg tlist hnd hlen rest
        (addToBatch cur o) acc hnd2 hsub2
        (fun o' ho' => hrest o' (List.mem_cons_of_mem o ho')) hcap2
      refine ⟨b, hb1, ?_⟩
      rw [hb2]
      simp [addToBatch]

/-- Claim C8, counterexample: the empty submission sequence has zero
distinct textures and fits any capacity, yet the Batch Builder produces
zero batches, not exactly one. -/
theorem buildBatches_empty_counterexample :
    buildBatches ⟨2, 100⟩ [] = some [] ∧ ([] : List Batch).length ≠ 1 :=
  ⟨rfl, by decide⟩

/-- Claim C8, amended: for every NONEMPTY sequence of display objects
whose distinct textures number at most `texturesPerBatch` and whose total
vertex count fits the buffer capacity, the Batch Builder produces exactly
one batch containing the whole sequence. -/
theorem buildBatches_single (cfg : BatchConfig) (objs : List DisplayObj)
    (hne : objs ≠ [])
    (htex : ((objs.map DisplayObj.texture).dedup).length ≤
      cfg.texturesPerBatch)
    (hcap : vertexTotal objs ≤ cfg.vertexCapacity) :
    ∃ b : Batch, buildBatches cfg objs = some [b] ∧ b.objs = objs := by
  cases objs with
  | nil => exact absurd rfl hne
  | cons o rest =>
      have hsplit : vertexTotal (o :: rest) =
          o.vertexCount + vertexTotal rest := by simp [vertexTotal]
      have hfit : fitsAlone cfg o = true := by
        simp only [fitsAlone, decide_eq_true_eq]
        refine le_trans ?_ hcap
        rw [hsplit]
        exact Nat.le_add_right _ _
      rw [buildBatches, if_pos hfit]
      obtain ⟨b, hb1, hb2⟩ := buildGo_one cfg
        (((o :: rest).map DisplayObj.texture).dedup) (List.nodup_dedup _)
        htex rest (startBatch o) [] (by simp [startBatch])
        (by
          intro t ht
          rw [startBatch] at ht
          rw [List.mem_singleton.mp ht]
          exact List.mem_dedup.mpr (by simp))
        (by
          intro o' ho'
          exact List.mem_dedup.mpr (List.mem_map_of_mem _
            (List.mem_cons_of_mem o ho')))
        (by
          have : (startBatch o).objs = [o] := rfl
          rw [this]
          have h1 : vertexTotal [o] = o.vertexCount := by simp [vertexTotal]
          rw [h1, ← hsplit]
          exact hcap)
      refine ⟨b, by simpa using hb1, ?_⟩
      rw [hb2]
      rfl

/-- Claim C8, witness for the amended theorem at a concrete two-object
sequence sharing one texture. -/
theorem buildBatches_single_witness :
    ∃ b : Batch,
      buildBatches ⟨2, 100⟩ [⟨5, 3, [0]⟩, ⟨5, 4, [0, 1]⟩] = some [b] ∧
      b.objs = [⟨5, 3, [0]⟩, ⟨5, 4, [0, 1]⟩] :=
  buildBatches_single ⟨2, 100⟩ [⟨5, 3, [0]⟩, ⟨5, 4, [0, 1]⟩]
    (by decide) (by decide) (by decide)

/-- Claim C9: with a texture budget of 2, submitting four objects with
textures [A, A, B, C] (here A = 0, B = 1, C = 2) yields exactly two
batches — objects 0, 1, 2 with texture A in slot 0 and texture B in
slot 1, then object 3 alone with texture C in slot 0: the third distinct
texture closes the batch. -/
theorem buildBatches_two_textures_example :
    buildBatches ⟨2, 1000⟩
        [⟨0, 3, [0, 1, 2]⟩, ⟨0, 3, [0, 1, 2]⟩, ⟨1, 3, [0, 1, 2]⟩,
          ⟨2, 3, [0, 1, 2]⟩] =
      some [⟨[⟨0, 3, [0, 1, 2]⟩, ⟨0, 3, [0, 1, 2]⟩, ⟨1, 3, [0, 1, 2]⟩],
              [0, 1]⟩,
            ⟨[⟨2, 3, [0, 1, 2]⟩], [2]⟩] ∧
    slotOf ⟨[⟨0, 3, [0, 1, 2]⟩, ⟨0, 3, [0, 1, 2]⟩, ⟨1, 3, [0, 1, 2]⟩],
        [0, 1]⟩ ⟨0, 3, [0, 1, 2]⟩ = 0 ∧
    slotOf ⟨[⟨0, 3, [0, 1, 2]⟩, ⟨0, 3, [0, 1, 2]⟩, ⟨1, 3, [0, 1, 2]⟩],
        [0, 1]⟩ ⟨1, 3, [0, 1, 2]⟩ = 1 ∧
    slotOf ⟨[⟨2, 3, [0, 1, 2]⟩], [2]⟩ ⟨2, 3, [0, 1, 2]⟩ = 0 := by
  decide
